import Mathlib

/-!
Verification of the law asynchronous writer library.

This file gives a shallow embedding, in Lean, of the core of the
repository: the lock-free MPSC queue (src/internal/lockfree/queue.go and
node.go), and the WriteAsyncer facade together with its drainer
(src/unnamed/part_011, the current revision of writer.go, plus
src/config.go).  The embedding is sequential: the source's atomic loads
and compare-and-swap operations are executed by a single thread, so every
CAS succeeds on its first attempt; this matches the single-threaded
scenarios the verified properties quantify over.

Bytes are modelled as natural numbers; Go byte slices become lists, a
possibly-nil slice becomes an Option.  Go interface values stored in the
queue become Option values, with none playing the role of the nil
interface value.
-/

set_option autoImplicit false

namespace Law

/-! ## The lock-free queue (src/internal/lockfree/queue.go)

A queue node (src/internal/lockfree/node.go) holds a value and a pointer
to the next node.  In this sequential embedding node pointers become
indices into an append-only list of nodes (the heap); the node pool that
recycles dequeued nodes is immaterial to the queued values, so freed
nodes simply stay in the heap and are never revisited. -/

/-- A node of the lock-free queue: the stored interface value (none is
the nil interface value, used by the sentinel) and the next pointer. -/
structure LFNode (α : Type) where
  value : Option α
  next : Option Nat
deriving Repr, DecidableEq

instance (α : Type) : Inhabited (LFNode α) := ⟨⟨none, none⟩⟩

/-- The lock-free queue state: the node heap, the head and tail node
indices, and the length counter (the Go field is an int64 updated with
atomic adds). -/
structure LockFreeQueue (α : Type) where
  heap : List (LFNode α)
  head : Nat
  tail : Nat
  length : Int
deriving Repr, DecidableEq

/-- NewLockFreeQueue: head and tail point at a fresh sentinel node whose
value is the nil interface value. -/
def NewLockFreeQueue (α : Type) : LockFreeQueue α :=
  { heap := [default], head := 0, tail := 0, length := 0 }

namespace LockFreeQueue

variable {α : Type}

/-- Push (queue.go lines 70-118), run sequentially: the new node is
linked behind the current tail (the CAS on tail.next succeeds at once),
the tail pointer is advanced to the new node, and the length counter is
incremented. -/
def Push (q : LockFreeQueue α) (value : Option α) : LockFreeQueue α :=
  let nodeId := q.heap.length
  let tailNode := q.heap.getD q.tail default
  { heap := (q.heap.set q.tail { tailNode with next := some nodeId }) ++
      [{ value := value, next := none }],
    head := q.head,
    tail := nodeId,
    length := q.length + 1 }

/-- Pop (queue.go lines 122-180), run sequentially.  Sequentially the
tail never lags, so the head node's next pointer is nil exactly when
head = tail: the queue is empty and nil is returned.  Otherwise the head
is advanced to the first real node, the length counter is decremented,
the old head node is recycled, and the first node's value is returned,
even when that stored value is itself the nil interface value. -/
def Pop (q : LockFreeQueue α) : Option α × LockFreeQueue α :=
  match (q.heap.getD q.head default).next with
  | none => (none, q)
  | some f =>
    ((q.heap.getD f default).value,
      { q with head := f, length := q.length - 1 })

/-- Length (queue.go lines 184-188): the advisory length counter. -/
def Length (q : LockFreeQueue α) : Int := q.length

/-- The abstract contents of the queue: the values of the nodes strictly
after the head node, in link order.  Sequentially the nodes are linked in
allocation order, so these are the entries of the heap past the head. -/
def toList (q : LockFreeQueue α) : List (Option α) :=
  (q.heap.drop (q.head + 1)).map LFNode.value

/-- Well-formedness of a sequentially reachable queue state: the tail is
the last allocated node, the head has not passed the tail, interior nodes
link to their successor, the tail node terminates the chain, and the
length counter tracks the number of queued nodes. -/
structure WF (q : LockFreeQueue α) : Prop where
  tail_succ : q.tail + 1 = q.heap.length
  head_le : q.head ≤ q.tail
  next_mid : ∀ i, q.head ≤ i → i < q.tail →
    (q.heap.getD i default).next = some (i + 1)
  next_tail : (q.heap.getD q.tail default).next = none
  len_track : q.length = (q.tail : Int) - (q.head : Int)

/-- The state after a successful head-advance in Pop: the head moves to
the first real node and the length counter is decremented. -/
def popAdvance (q : LockFreeQueue α) : LockFreeQueue α :=
  { q with head := q.head + 1, length := q.length - 1 }

end LockFreeQueue

/-! ## Operation sequences on the queue

A single-threaded client of the queue interleaves Push and Pop calls.
All values pushed by the writer are non-nil buffer pointers, so a pushed
value is modelled as some v. -/

/-- A single-threaded queue operation. -/
inductive QOp (α : Type) where
  | push : α → QOp α
  | pop : QOp α
deriving Repr, DecidableEq

/-- Run a sequence of operations on the lock-free queue, collecting the
result of every Pop in call order. -/
def runOps {α : Type} (q : LockFreeQueue α) :
    List (QOp α) → LockFreeQueue α × List (Option α)
  | [] => (q, [])
  | QOp.push v :: ops => runOps (q.Push (some v)) ops
  | QOp.pop :: ops =>
    let r := q.Pop
    let t := runOps r.2 ops
    (t.1, r.1 :: t.2)

/-- The specification-level FIFO queue: push appends at the back, pop
takes the front, and pop signals none exactly when every pushed value
has already been popped. -/
def fifoRun {α : Type} (s : List α) :
    List (QOp α) → List α × List (Option α)
  | [] => (s, [])
  | QOp.push v :: ops => fifoRun (s ++ [v]) ops
  | QOp.pop :: ops =>
    match s with
    | [] =>
      let t := fifoRun ([] : List α) ops
      (t.1, none :: t.2)
    | v :: rest =>
      let t := fifoRun rest ops
      (t.1, some v :: t.2)

/-! ## The sink (the external io.Writer)

The downstream sink is byte-oriented and is modelled all-or-nothing: a
call either accepts the whole chunk or fails accepting nothing.  Its
behaviour is scripted by a list of Booleans, one per call (true =
accept); once the script is exhausted every further call succeeds.  The
bytes it has accepted so far are accumulated in order. -/

/-- One sink write call: consumes the next entry of the behaviour script
and either appends the chunk to the received stream or fails. -/
def sinkWrite (plan : List Bool) (received : List Nat) (p : List Nat) :
    Bool × List Bool × List Nat :=
  match plan with
  | [] => (true, [], received ++ p)
  | ok :: rest => if ok then (true, rest, received ++ p) else (false, rest, received)

/-! ## The staging buffer (Go bufio.Writer)

The WriteAsyncer stages small payloads in a bufio.Writer of capacity
conf.buffSize.  The embedding keeps the buffered bytes, the capacity and
the sticky error flag, mirroring the Go standard library: Flush with an
empty buffer is a no-op, a failed sink call leaves the buffered bytes in
place and latches the error, and once the error is latched every
subsequent call fails immediately. -/

/-- The state of the bufio.Writer staging buffer. -/
structure BufWriter where
  cap : Nat
  buf : List Nat
  err : Bool
deriving Repr, DecidableEq

namespace BufWriter

/-- Available reports how many bytes fit before the buffer is full. -/
def available (bw : BufWriter) : Nat := bw.cap - bw.buf.length

/-- Buffered reports how many bytes are currently staged. -/
def buffered (bw : BufWriter) : Nat := bw.buf.length

/-- Flush, following Go bufio.Writer.Flush specialised to the
all-or-nothing sink: a latched error fails at once, an empty buffer is a
no-op, otherwise the buffered bytes are offered to the sink; on failure
the bytes stay buffered and the error latches. -/
def Flush (bw : BufWriter) (plan : List Bool) (received : List Nat) :
    Bool × BufWriter × List Bool × List Nat :=
  if bw.err then (false, bw, plan, received)
  else if bw.buf.length = 0 then (true, bw, plan, received)
  else
    match sinkWrite plan received bw.buf with
    | (true, plan2, received2) => (true, { bw with buf := [] }, plan2, received2)
    | (false, plan2, received2) => (false, { bw with err := true }, plan2, received2)

/-- Write, following Go bufio.Writer.Write specialised to the
all-or-nothing sink.  When the chunk fits in the available space it is
simply copied into the buffer; the remaining branches unfold the Go
fill-flush loop, which with an all-or-nothing sink runs at most twice.
In this program Write is only ever reached with a fitting chunk (the
caller flushes first and routes oversized chunks directly to the sink),
so the later branches are dead code kept for faithfulness. -/
def Write (bw : BufWriter) (plan : List Bool) (received : List Nat)
    (p : List Nat) : Bool × BufWriter × List Bool × List Nat :=
  if bw.err then (false, bw, plan, received)
  else if p.length ≤ bw.available then
    (true, { bw with buf := bw.buf ++ p }, plan, received)
  else if bw.buf.length = 0 then
    match sinkWrite plan received p with
    | (true, plan2, received2) => (true, bw, plan2, received2)
    | (false, plan2, received2) => (false, { bw with err := true }, plan2, received2)
  else
    let filled := bw.buf ++ p.take bw.available
    match sinkWrite plan received filled with
    | (false, plan2, received2) =>
      (false, { bw with buf := filled, err := true }, plan2, received2)
    | (true, plan2, received2) =>
      let rest := p.drop bw.available
      if rest.length ≤ bw.cap then (true, { bw with buf := rest }, plan2, received2)
      else
        match sinkWrite plan2 received2 rest with
        | (true, plan3, received3) => (true, { bw with buf := [] }, plan3, received3)
        | (false, plan3, received3) =>
          (false, { bw with buf := [], err := true }, plan3, received3)

/-- Reset to io.Discard (the last step of Stop): the buffer empties, the
latched error clears, and the write target becomes the discarding sink. -/
def ResetDiscard (bw : BufWriter) : BufWriter := { bw with buf := [], err := false }

end BufWriter

/-! ## The WriteAsyncer facade and drainer (src/unnamed/part_011)

The embedding is the single-threaded semantics of the writer: atomics
are read and written in program order, and the background poller's work
is performed at the sequential points where it is observable (item
processing, heartbeat ticks, and the drain inside Stop). -/

/-- The two producer-visible errors (part_011 lines 24-27). -/
inductive WriteError where
  | closed
  | nilContent
deriving Repr, DecidableEq

/-- The configuration fields the embedded core consumes (src/config.go).
Sizes and durations are kept as integers (millisecond durations). -/
structure Config where
  buffSize : Int
  idleTimeout : Int
deriving Repr, DecidableEq

/-- DefaultBufferSize (src/config.go line 10). -/
def DefaultBufferSize : Int := 2048

/-- DefaultIdleTimeout in milliseconds (src/config.go line 15 and the
defaultIdleTimeout constant of part_011 line 20). -/
def defaultIdleTimeoutMs : Int := 5000

/-- isConfigValid (src/config.go lines 74-95), restricted to the fields
the core consumes: non-positive values are coerced to the defaults. -/
def isConfigValid (conf : Config) : Config :=
  { buffSize := if conf.buffSize ≤ 0 then DefaultBufferSize else conf.buffSize,
    idleTimeout := if conf.idleTimeout ≤ 0 then defaultIdleTimeoutMs
      else conf.idleTimeout }

/-- The WriteAsyncer state (part_011 lines 31-42) together with the
collaborators it owns: the queue, the staging buffer, the pooled-buffer
counter (pooled buffers are always empty, so a count suffices), the
sink's scripted behaviour and received stream, and the list of payload
arguments of the OnWriteFailed callback invocations (none is the nil
payload of an idle-flush failure). -/
structure WriteAsyncer where
  buffSize : Nat
  idleTimeout : Int
  running : Bool
  executeAt : Int
  timer : Int
  onceDone : Bool
  queue : LockFreeQueue (List Nat)
  bufferedWriter : BufWriter
  sinkPlan : List Bool
  sinkReceived : List Nat
  callbacks : List (Option (List Nat))
  pool : Nat
deriving Repr, DecidableEq

/-- NewWriteAsyncer (part_011 lines 46-73): the configuration is
validated, the staging buffer has capacity conf.buffSize, the state is
running, and the shared millisecond clock starts at zero (its value
before the first tick). -/
def NewWriteAsyncer (conf : Config) (plan : List Bool) : WriteAsyncer :=
  let conf := isConfigValid conf
  { buffSize := conf.buffSize.toNat,
    idleTimeout := conf.idleTimeout,
    running := true,
    executeAt := 0,
    timer := 0,
    onceDone := false,
    queue := NewLockFreeQueue (List Nat),
    bufferedWriter := { cap := conf.buffSize.toNat, buf := [], err := false },
    sinkPlan := plan,
    sinkReceived := [],
    callbacks := [],
    pool := 0 }

namespace WriteAsyncer

/-- Write (part_011 lines 90-114).  A stopped writer rejects with the
closed error; a nil payload rejects with the nil-content error; an empty
payload succeeds without enqueueing; otherwise a buffer is taken from
the pool (pool count drops, or an allocation happens at zero), the bytes
of p are copied into it (bytes.Buffer.Write cannot fail, so the error
branch of the source is dead), and the buffer is pushed onto the queue. -/
def Write (wa : WriteAsyncer) (p : Option (List Nat)) :
    (Nat × Option WriteError) × WriteAsyncer :=
  if wa.running = false then ((0, some WriteError.closed), wa)
  else
    match p with
    | none => ((0, some WriteError.nilContent), wa)
    | some bs =>
      if bs.length ≤ 0 then ((0, none), wa)
      else
        ((bs.length, none),
          { wa with pool := wa.pool - 1, queue := wa.queue.Push (some bs) })

/-- A direct write to the underlying writer (the wa.writer.Write call of
part_011 line 135), bypassing the staging buffer. -/
def sinkDirectWrite (wa : WriteAsyncer) (p : List Nat) : Bool × WriteAsyncer :=
  let r := sinkWrite wa.sinkPlan wa.sinkReceived p
  (r.1, { wa with sinkPlan := r.2.1, sinkReceived := r.2.2 })

/-- The wa.bufferedWriter.Flush() call, threading the sink state. -/
def bwFlush (wa : WriteAsyncer) : Bool × WriteAsyncer :=
  let r := wa.bufferedWriter.Flush wa.sinkPlan wa.sinkReceived
  (r.1, { wa with
          bufferedWriter := r.2.1, sinkPlan := r.2.2.1, sinkReceived := r.2.2.2 })

/-- The wa.bufferedWriter.Write(content) call, threading the sink state. -/
def bwWrite (wa : WriteAsyncer) (p : List Nat) : Bool × WriteAsyncer :=
  let r := wa.bufferedWriter.Write wa.sinkPlan wa.sinkReceived p
  (r.1, { wa with
          bufferedWriter := r.2.1, sinkPlan := r.2.2.1, sinkReceived := r.2.2.2 })

/-- flushBufferedWriter (part_011 lines 118-139): empty content returns
at once; content that exceeds the available staging space while the
staging buffer is non-empty forces a flush first, and a flush error
aborts the call; content at least as large as the staging capacity goes
directly to the underlying writer; everything else is appended to the
staging buffer.  The Boolean of the result is the absence of an error. -/
def flushBufferedWriter (wa : WriteAsyncer) (content : List Nat) :
    (Nat × Bool) × WriteAsyncer :=
  let sizeOfContent := content.length
  if sizeOfContent = 0 then ((0, true), wa)
  else
    let step :=
      if wa.bufferedWriter.available < sizeOfContent ∧
          0 < wa.bufferedWriter.buffered then
        wa.bwFlush
      else (true, wa)
    if step.1 = false then ((0, false), step.2)
    else
      let wa1 := step.2
      if wa1.buffSize ≤ sizeOfContent then
        let d := wa1.sinkDirectWrite content
        if d.1 then ((sizeOfContent, true), d.2) else ((0, false), d.2)
      else
        let w := wa1.bwWrite content
        if w.1 then ((sizeOfContent, true), w.2) else ((0, false), w.2)

/-- executeFunc (part_011 lines 199-210): the per-item routine of the
drainer.  It records the drain time, hands the buffer's bytes to
flushBufferedWriter, reports a failure to the callback with a copy of
the bytes, and always returns the buffer to the pool. -/
def executeFunc (wa : WriteAsyncer) (content : List Nat) : WriteAsyncer :=
  let wa1 := { wa with executeAt := wa.timer }
  let r := wa1.flushBufferedWriter content
  let wa2 :=
    if (r.1).2 = false then
      { r.2 with callbacks := r.2.callbacks ++ [some content] }
    else r.2
  { wa2 with pool := wa2.pool + 1 }

/-- The heartbeat branch of poller (part_011 lines 162-171): when the
staging buffer is non-empty and the shared clock has advanced at least
defaultIdleTimeout past the last drain time, the staging buffer is
flushed (a failure is reported to the callback with a nil payload) and
the last-drain time is updated.  Note the threshold is the package
constant, not the configured idleTimeout. -/
def heartbeatTick (wa : WriteAsyncer) : WriteAsyncer :=
  if 0 < wa.bufferedWriter.buffered then
    let now := wa.timer
    if defaultIdleTimeoutMs ≤ now - wa.executeAt then
      let f := wa.bwFlush
      let wa1 :=
        if f.1 = false then { f.2 with callbacks := f.2.callbacks ++ [none] }
        else f.2
      { wa1 with executeAt := now }
    else wa
  else wa

/-- The loop body of cleanQueueToWriter (part_011 lines 214-222),
with explicit fuel; the fuel is instantiated with the heap size, an
upper bound on the number of queued items, so it never runs out on a
well-formed queue. -/
def cleanLoop : Nat → WriteAsyncer → WriteAsyncer
  | 0, wa => wa
  | Nat.succ fuel, wa =>
    let r := wa.queue.Pop
    match r.1 with
    | none => wa
    | some content => cleanLoop fuel (executeFunc { wa with queue := r.2 } content)

/-- cleanQueueToWriter: pop until nil, executing each popped buffer. -/
def cleanQueueToWriter (wa : WriteAsyncer) : WriteAsyncer :=
  cleanLoop wa.queue.heap.length wa

/-- Stop (part_011 lines 77-86): guarded by sync.Once.  The first call
flips running off, cancels the background workers and waits for them
(in this sequential model their remaining work is the queue drain that
follows), drains the queue to the writer, flushes the staging buffer
ignoring its error, and resets the staging buffer onto io.Discard.
Every later call returns without doing anything. -/
def Stop (wa : WriteAsyncer) : WriteAsyncer :=
  if wa.onceDone then wa
  else
    let wa1 := { wa with onceDone := true, running := false }
    let wa2 := cleanQueueToWriter wa1
    let wa3 := (bwFlush wa2).2
    { wa3 with bufferedWriter := wa3.bufferedWriter.ResetDiscard }

end WriteAsyncer

/-! ## Specification-side helper notions

Two abbreviations used to state what the per-item routine does to the
staging buffer: after the conditional pre-flush of flushBufferedWriter
the staging buffer either was emptied into the sink or kept its bytes. -/

/-- The staging bytes remaining after the conditional pre-flush for a
content of size n: empty when the pre-flush fires, unchanged otherwise. -/
def stagingAfterPreFlush (bw : BufWriter) (n : Nat) : List Nat :=
  if bw.available < n ∧ 0 < bw.buffered then [] else bw.buf

/-- The bytes the conditional pre-flush hands to the sink for a content
of size n: the staged bytes when the pre-flush fires, nothing otherwise. -/
def sinkOutFromPreFlush (bw : BufWriter) (n : Nat) : List Nat :=
  if bw.available < n ∧ 0 < bw.buffered then bw.buf else []

/-- Run a sequence of producer Write calls, collecting each call's
(count, error) result in order. -/
def runWrites (wa : WriteAsyncer) :
    List (List Nat) → (List (Nat × Option WriteError)) × WriteAsyncer
  | [] => ([], wa)
  | p :: ps =>
    let r := wa.Write (some p)
    let t := runWrites r.2 ps
    (r.1 :: t.1, t.2)

/-! ## Concrete states used by witnesses and counterexamples -/

/-- A freshly constructed writer over an always-accepting sink. -/
def waOpen : WriteAsyncer :=
  NewWriteAsyncer { buffSize := 8, idleTimeout := 5000 } []

/-- The same writer after its running flag has been cleared. -/
def waClosed : WriteAsyncer := { waOpen with running := false }

/-- A writer with staging capacity 4 holding two staged bytes, over an
always-accepting sink. -/
def waStaged : WriteAsyncer :=
  { NewWriteAsyncer { buffSize := 4, idleTimeout := 5000 } [] with
    bufferedWriter := { cap := 4, buf := [5, 6], err := false } }

/-- A writer with staging capacity 4 holding two staged bytes, over a
sink that fails its first call and accepts its second. -/
def waFlaky : WriteAsyncer :=
  { NewWriteAsyncer { buffSize := 4, idleTimeout := 5000 } [false, true] with
    bufferedWriter := { cap := 4, buf := [5, 6], err := false } }

/-- A writer configured with a one-second idle timeout, one staged byte,
and a clock two seconds past the last drain activity. -/
def waIdleShort : WriteAsyncer :=
  { NewWriteAsyncer { buffSize := 2048, idleTimeout := 1000 } [] with
    bufferedWriter := { cap := 2048, buf := [42], err := false },
    timer := 2000, executeAt := 0 }

/-- The same writer with the clock six seconds past the last drain
activity, beyond the hard-coded five-second default. -/
def waIdleLong : WriteAsyncer := { waIdleShort with timer := 6000 }

/-! ## Properties of the queue embedding -/

namespace LockFreeQueue

variable {α : Type}

@[simp] theorem Push_heap (q : LockFreeQueue α) (v : Option α) :
    (q.Push v).heap =
      (q.heap.set q.tail
        { q.heap.getD q.tail default with next := some q.heap.length }) ++
      [{ value := v, next := none }] := rfl

@[simp] theorem Push_head (q : LockFreeQueue α) (v : Option α) :
    (q.Push v).head = q.head := rfl

@[simp] theorem Push_tail (q : LockFreeQueue α) (v : Option α) :
    (q.Push v).tail = q.heap.length := rfl

@[simp] theorem Push_length (q : LockFreeQueue α) (v : Option α) :
    (q.Push v).length = q.length + 1 := rfl

theorem NewLockFreeQueue_WF : (NewLockFreeQueue α).WF := by
  constructor
  · rfl
  · exact Nat.le_refl 0
  · intro i h1 h2
    exact absurd h2 (Nat.not_lt_zero i)
  · rfl
  · rfl

theorem toList_length (q : LockFreeQueue α) (hwf : q.WF) :
    q.toList.length = q.tail - q.head := by
  unfold toList
  rw [List.length_map, List.length_drop, ← hwf.tail_succ]
  omega

private theorem getD_set_self {β : Type} (l : List β) (i : Nat) (a d : β)
    (h : i < l.length) : (l.set i a).getD i d = a := by
  induction l generalizing i with
  | nil => exact absurd h (by simp)
  | cons b t ih =>
    cases i with
    | zero => rfl
    | succ j =>
      simp only [List.set, List.getD_cons_succ]
      exact ih j (by simpa using h)

private theorem getD_set_ne {β : Type} (l : List β) (i j : Nat) (a d : β)
    (h : i ≠ j) : (l.set i a).getD j d = l.getD j d := by
  induction l generalizing i j with
  | nil => rfl
  | cons b t ih =>
    cases i with
    | zero =>
      cases j with
      | zero => exact absurd rfl h
      | succ k => rfl
    | succ i2 =>
      cases j with
      | zero => rfl
      | succ k =>
        simp only [List.set, List.getD_cons_succ]
        exact ih i2 k (by omega)

private theorem map_value_set_next (heap : List (LFNode α)) (i : Nat)
    (nxt : Option Nat) :
    ((heap.set i { heap.getD i default with next := nxt }).map LFNode.value) =
      heap.map LFNode.value := by
  induction heap generalizing i with
  | nil => rfl
  | cons b t ih =>
    cases i with
    | zero => rfl
    | succ j =>
      simp only [List.set, List.getD_cons_succ, List.map_cons, List.cons.injEq]
      exact ⟨by trivial, ih j⟩

theorem Push_toList (q : LockFreeQueue α) (v : Option α) (hwf : q.WF) :
    (q.Push v).toList = q.toList ++ [v] := by
  have hsetlen : (q.heap.set q.tail
      { q.heap.getD q.tail default with
          next := some q.heap.length }).length = q.heap.length :=
    List.length_set q.heap q.tail _
  have hle : q.head + 1 ≤ q.heap.length := by
    have := hwf.tail_succ
    have := hwf.head_le
    omega
  unfold toList
  rw [Push_heap, Push_head, List.drop_append_eq_append_drop, hsetlen]
  have h0 : q.head + 1 - q.heap.length = 0 := by omega
  rw [h0, List.drop_zero, List.map_append, List.map_drop, List.map_drop,
    map_value_set_next]
  rfl

theorem Push_WF (q : LockFreeQueue α) (v : Option α) (hwf : q.WF) :
    (q.Push v).WF := by
  obtain ⟨h1, h2, h3, h4, h5⟩ := hwf
  have htail : q.tail < q.heap.length := by omega
  have hsetlen : (q.heap.set q.tail
      { q.heap.getD q.tail default with
          next := some q.heap.length }).length = q.heap.length :=
    List.length_set q.heap q.tail _
  constructor
  · rw [Push_tail]
    simp only [Push_heap, List.length_append, hsetlen, List.length_singleton]
  · rw [Push_head, Push_tail]
    omega
  · intro i hge hlt
    rw [Push_head] at hge
    rw [Push_tail] at hlt
    rw [Push_heap, List.getD_append _ _ _ _ (by rw [hsetlen]; omega)]
    by_cases hi : i = q.tail
    · subst hi
      rw [getD_set_self _ _ _ _ htail]
      simp only [h1]
    · rw [getD_set_ne _ _ _ _ _ (fun hc => hi hc.symm)]
      exact h3 i hge (by omega)
  · rw [Push_tail, Push_heap,
      List.getD_append_right _ _ _ _ (by rw [hsetlen])]
    rw [hsetlen]
    simp
  · rw [Push_length, Push_head, Push_tail]
    rw [h5]
    omega

theorem Pop_nil (q : LockFreeQueue α) (hwf : q.WF) (h : q.toList = []) :
    q.Pop = (none, q) := by
  have hlen := toList_length q hwf
  rw [h] at hlen
  have hht : q.head = q.tail := by
    have := hwf.head_le
    simp only [List.length_nil] at hlen
    omega
  unfold Pop
  rw [hht, hwf.next_tail]

theorem Pop_cons (q : LockFreeQueue α) (hwf : q.WF) (v : Option α)
    (rest : List (Option α)) (h : q.toList = v :: rest) :
    q.Pop = (v, q.popAdvance) ∧ q.popAdvance.toList = rest ∧
      q.popAdvance.WF := by
  have hlen := toList_length q hwf
  rw [h] at hlen
  have hlt : q.head < q.tail := by
    simp only [List.length_cons] at hlen
    omega
  have hidx : q.head + 1 < q.heap.length := by
    have := hwf.tail_succ; omega
  have hnext := hwf.next_mid q.head (Nat.le_refl _) hlt
  have hdrop : q.heap.drop (q.head + 1) =
      q.heap[q.head + 1] :: q.heap.drop (q.head + 2) :=
    List.drop_eq_getElem_cons hidx
  unfold toList at h
  rw [hdrop] at h
  simp only [List.map_cons, List.cons.injEq] at h
  refine ⟨?_, ?_, ?_⟩
  · unfold Pop
    rw [hnext]
    dsimp only
    rw [List.getD_eq_getElem _ _ hidx, h.1]
    rfl
  · unfold popAdvance toList
    simp only
    exact h.2
  · obtain ⟨h1, h2, h3, h4, h5⟩ := hwf
    constructor
    · exact h1
    · exact hlt
    · intro i hge hltt
      exact h3 i (by exact Nat.le_of_succ_le hge) hltt
    · exact h4
    · unfold popAdvance
      simp only [h5]
      push_cast
      omega

end LockFreeQueue

private theorem runOps_sim {α : Type} (ops : List (QOp α)) :
    ∀ (q : LockFreeQueue α) (s : List α), q.WF → q.toList = s.map some →
      (runOps q ops).2 = (fifoRun s ops).2 ∧
      (runOps q ops).1.toList = ((fifoRun s ops).1).map some ∧
      (runOps q ops).1.WF := by
  induction ops with
  | nil =>
    intro q s hwf habs
    exact ⟨rfl, habs, hwf⟩
  | cons op ops ih =>
    intro q s hwf habs
    cases op with
    | push v =>
      have hwf2 := LockFreeQueue.Push_WF q (some v) hwf
      have habs2 : (q.Push (some v)).toList = (s ++ [v]).map some := by
        rw [LockFreeQueue.Push_toList q (some v) hwf, habs, List.map_append]
        rfl
      exact ih (q.Push (some v)) (s ++ [v]) hwf2 habs2
    | pop =>
      cases s with
      | nil =>
        have hnil : q.toList = [] := by simpa using habs
        have hpop := LockFreeQueue.Pop_nil q hwf hnil
        have t := ih q [] hwf hnil
        simp only [runOps, fifoRun, hpop]
        exact ⟨by rw [t.1], t.2.1, t.2.2⟩
      | cons v rest =>
        have hcons : q.toList = some v :: rest.map some := by
          simpa using habs
        obtain ⟨hpop, habs2, hwf2⟩ :=
          LockFreeQueue.Pop_cons q hwf (some v) (rest.map some) hcons
        have t := ih q.popAdvance rest hwf2 habs2
        simp only [runOps, fifoRun, hpop]
        exact ⟨by rw [t.1], t.2.1, t.2.2⟩

/-! ## Properties of the writer embedding -/

namespace WriteAsyncer

private theorem flushBufferedWriter_fields (wa : WriteAsyncer) (content : List Nat) :
    (wa.flushBufferedWriter content).2.onceDone = wa.onceDone ∧
    (wa.flushBufferedWriter content).2.pool = wa.pool ∧
    (wa.flushBufferedWriter content).2.queue = wa.queue ∧
    (wa.flushBufferedWriter content).2.running = wa.running ∧
    (wa.flushBufferedWriter content).2.buffSize = wa.buffSize ∧
    (wa.flushBufferedWriter content).2.idleTimeout = wa.idleTimeout ∧
    (wa.flushBufferedWriter content).2.timer = wa.timer ∧
    (wa.flushBufferedWriter content).2.executeAt = wa.executeAt ∧
    (wa.flushBufferedWriter content).2.callbacks = wa.callbacks := by
  unfold flushBufferedWriter bwFlush bwWrite sinkDirectWrite
  dsimp only
  split_ifs <;> exact ⟨rfl, rfl, rfl, rfl, rfl, rfl, rfl, rfl, rfl⟩

private theorem executeFunc_fields (wa : WriteAsyncer) (content : List Nat) :
    (wa.executeFunc content).onceDone = wa.onceDone ∧
    (wa.executeFunc content).queue = wa.queue ∧
    (wa.executeFunc content).running = wa.running ∧
    (wa.executeFunc content).buffSize = wa.buffSize ∧
    (wa.executeFunc content).idleTimeout = wa.idleTimeout ∧
    (wa.executeFunc content).timer = wa.timer ∧
    (wa.executeFunc content).pool = wa.pool + 1 := by
  obtain ⟨h1, h2, h3, h4, h5, h6, h7, h8, h9⟩ :=
    flushBufferedWriter_fields { wa with executeAt := wa.timer } content
  unfold executeFunc
  dsimp only
  split_ifs <;>
    exact ⟨h1, h3, h4, h5, h6, h7, by rw [h2]⟩

private theorem bwFlush_nilplan (wa : WriteAsyncer) (hplan : wa.sinkPlan = [])
    (herr : wa.bufferedWriter.err = false) :
    wa.bwFlush = (true, { wa with
      bufferedWriter := { wa.bufferedWriter with buf := [] },
      sinkReceived := wa.sinkReceived ++ wa.bufferedWriter.buf }) := by
  obtain ⟨bs, it, run, ea, tm, od, qu, bw, sp, sr, cb, pl⟩ := wa
  obtain ⟨cp, buf, er⟩ := bw
  dsimp only at hplan herr
  subst hplan
  subst herr
  rcases buf with _ | ⟨b, buf2⟩
  · simp [bwFlush, BufWriter.Flush, sinkWrite]
  · simp [bwFlush, BufWriter.Flush, sinkWrite]

private theorem bwFlush_failplan (wa : WriteAsyncer) (rest : List Bool)
    (hplan : wa.sinkPlan = false :: rest)
    (herr : wa.bufferedWriter.err = false)
    (hbuf : wa.bufferedWriter.buf ≠ []) :
    wa.bwFlush = (false, { wa with
      bufferedWriter := { wa.bufferedWriter with err := true },
      sinkPlan := rest }) := by
  obtain ⟨bs, it, run, ea, tm, od, qu, bw, sp, sr, cb, pl⟩ := wa
  obtain ⟨cp, buf, er⟩ := bw
  dsimp only at hplan herr hbuf
  subst hplan
  subst herr
  rcases buf with _ | ⟨b, buf2⟩
  · exact absurd rfl hbuf
  · simp [bwFlush, BufWriter.Flush, sinkWrite]

private theorem bwWrite_fit (wa : WriteAsyncer) (p : List Nat)
    (herr : wa.bufferedWriter.err = false)
    (hfit : p.length ≤ wa.bufferedWriter.available) :
    wa.bwWrite p = (true, { wa with
      bufferedWriter :=
        { wa.bufferedWriter with buf := wa.bufferedWriter.buf ++ p } }) := by
  obtain ⟨bs, it, run, ea, tm, od, qu, bw, sp, sr, cb, pl⟩ := wa
  obtain ⟨cp, buf, er⟩ := bw
  dsimp only at herr hfit
  subst herr
  simp [bwWrite, BufWriter.Write, hfit]

private theorem sinkDirectWrite_nilplan (wa : WriteAsyncer) (p : List Nat)
    (hplan : wa.sinkPlan = []) :
    wa.sinkDirectWrite p =
      (true, { wa with sinkReceived := wa.sinkReceived ++ p }) := by
  obtain ⟨bs, it, run, ea, tm, od, qu, bw, sp, sr, cb, pl⟩ := wa
  dsimp only at hplan
  subst hplan
  simp [sinkDirectWrite, sinkWrite]

private theorem flushBufferedWriter_ok (wa : WriteAsyncer) (content : List Nat)
    (hplan : wa.sinkPlan = []) (herr : wa.bufferedWriter.err = false)
    (hcap : wa.bufferedWriter.cap = wa.buffSize) :
    wa.flushBufferedWriter content =
      if content.length = 0 then ((0, true), wa)
      else if wa.buffSize ≤ content.length then
        ((content.length, true), { wa with
          bufferedWriter := { wa.bufferedWriter with
            buf := stagingAfterPreFlush wa.bufferedWriter content.length },
          sinkReceived := wa.sinkReceived ++
            sinkOutFromPreFlush wa.bufferedWriter content.length ++ content })
      else
        ((content.length, true), { wa with
          bufferedWriter := { wa.bufferedWriter with
            buf := stagingAfterPreFlush wa.bufferedWriter content.length ++
              content },
          sinkReceived := wa.sinkReceived ++
            sinkOutFromPreFlush wa.bufferedWriter content.length }) := by
  by_cases h0 : content.length = 0
  · rw [if_pos h0]
    unfold flushBufferedWriter
    rw [if_pos h0]
  · rw [if_neg h0]
    unfold flushBufferedWriter
    rw [if_neg h0]
    dsimp only
    by_cases hfl : wa.bufferedWriter.available < content.length ∧
        0 < wa.bufferedWriter.buffered
    · rw [if_pos hfl, bwFlush_nilplan wa hplan herr]
      dsimp only
      rw [if_neg (by simp)]
      unfold stagingAfterPreFlush sinkOutFromPreFlush
      rw [if_pos hfl, if_pos hfl]
      by_cases hbig : wa.buffSize ≤ content.length
      · rw [if_pos hbig, if_pos hbig,
          sinkDirectWrite_nilplan
            { wa with
              bufferedWriter := { wa.bufferedWriter with buf := [] },
              sinkReceived := wa.sinkReceived ++ wa.bufferedWriter.buf }
            content hplan]
        rfl
      · rw [if_neg hbig, if_neg hbig,
          bwWrite_fit
            { wa with
              bufferedWriter := { wa.bufferedWriter with buf := [] },
              sinkReceived := wa.sinkReceived ++ wa.bufferedWriter.buf }
            content herr
            (by
              show content.length ≤ wa.bufferedWriter.cap - ([] : List Nat).length
              rw [hcap]
              simp
              omega)]
        rfl
    · rw [if_neg hfl]
      dsimp only
      rw [if_neg (by simp)]
      unfold stagingAfterPreFlush sinkOutFromPreFlush
      rw [if_neg hfl, if_neg hfl]
      by_cases hbig : wa.buffSize ≤ content.length
      · rw [if_pos hbig, if_pos hbig,
          sinkDirectWrite_nilplan wa content hplan]
        simp
      · have hfit : content.length ≤ wa.bufferedWriter.available := by
          simp only [BufWriter.available, BufWriter.buffered, hcap] at hfl ⊢
          omega
        rw [if_neg hbig, if_neg hbig, bwWrite_fit wa content herr hfit]
        simp

private theorem executeFunc_sink_fields (wa : WriteAsyncer) (c : List Nat) :
    (wa.executeFunc c).sinkReceived =
      (({ wa with executeAt := wa.timer }).flushBufferedWriter c).2.sinkReceived ∧
    (wa.executeFunc c).bufferedWriter =
      (({ wa with executeAt := wa.timer }).flushBufferedWriter c).2.bufferedWriter ∧
    (wa.executeFunc c).sinkPlan =
      (({ wa with executeAt := wa.timer }).flushBufferedWriter c).2.sinkPlan := by
  unfold executeFunc
  dsimp only
  split_ifs <;> exact ⟨rfl, rfl, rfl⟩

private theorem flushBufferedWriter_flow (wa : WriteAsyncer) (c : List Nat)
    (hplan : wa.sinkPlan = []) (herr : wa.bufferedWriter.err = false)
    (hcap : wa.bufferedWriter.cap = wa.buffSize) :
    (wa.flushBufferedWriter c).2.sinkReceived ++
        (wa.flushBufferedWriter c).2.bufferedWriter.buf =
      wa.sinkReceived ++ wa.bufferedWriter.buf ++ c ∧
    (wa.flushBufferedWriter c).2.sinkPlan = [] ∧
    (wa.flushBufferedWriter c).2.bufferedWriter.err = false ∧
    (wa.flushBufferedWriter c).2.bufferedWriter.cap = wa.buffSize := by
  rw [flushBufferedWriter_ok wa c hplan herr hcap]
  split_ifs with h0 hbig
  · have hc : c = [] := List.length_eq_zero.mp h0
    subst hc
    exact ⟨by simp, hplan, herr, hcap⟩
  · refine ⟨?_, hplan, herr, hcap⟩
    dsimp only
    unfold stagingAfterPreFlush sinkOutFromPreFlush
    by_cases hfl : wa.bufferedWriter.available < c.length ∧
        0 < wa.bufferedWriter.buffered
    · rw [if_pos hfl, if_pos hfl]
      simp
    · have hb0 : wa.bufferedWriter.buf = [] := by
        apply List.length_eq_zero.mp
        simp only [BufWriter.available, BufWriter.buffered, hcap] at hfl
        omega
      rw [if_neg hfl, if_neg hfl, hb0]
      simp
  · refine ⟨?_, hplan, herr, hcap⟩
    dsimp only
    unfold stagingAfterPreFlush sinkOutFromPreFlush
    by_cases hfl : wa.bufferedWriter.available < c.length ∧
        0 < wa.bufferedWriter.buffered
    · rw [if_pos hfl, if_pos hfl]
      simp
    · rw [if_neg hfl, if_neg hfl]
      simp

private theorem executeFunc_flow (wa : WriteAsyncer) (c : List Nat)
    (hplan : wa.sinkPlan = []) (herr : wa.bufferedWriter.err = false)
    (hcap : wa.bufferedWriter.cap = wa.buffSize) :
    (wa.executeFunc c).sinkReceived ++ (wa.executeFunc c).bufferedWriter.buf =
      wa.sinkReceived ++ wa.bufferedWriter.buf ++ c ∧
    (wa.executeFunc c).sinkPlan = [] ∧
    (wa.executeFunc c).bufferedWriter.err = false ∧
    (wa.executeFunc c).bufferedWriter.cap = (wa.executeFunc c).buffSize := by
  obtain ⟨hr, hbw, hp⟩ := executeFunc_sink_fields wa c
  obtain ⟨hf1, hf2, hf3, hf4⟩ :=
    flushBufferedWriter_flow { wa with executeAt := wa.timer } c hplan herr hcap
  refine ⟨?_, ?_, ?_, ?_⟩
  · rw [hr, hbw]
    exact hf1
  · rw [hp]
    exact hf2
  · rw [hbw]
    exact hf3
  · rw [hbw, (executeFunc_fields wa c).2.2.2.1]
    exact hf4

private theorem cleanLoop_drain (items : List (List Nat)) :
    ∀ (fuel : Nat) (wa : WriteAsyncer), wa.queue.WF →
      wa.queue.toList = items.map some → items.length ≤ fuel →
      wa.sinkPlan = [] → wa.bufferedWriter.err = false →
      wa.bufferedWriter.cap = wa.buffSize →
      (cleanLoop fuel wa).sinkReceived ++
          (cleanLoop fuel wa).bufferedWriter.buf =
        wa.sinkReceived ++ wa.bufferedWriter.buf ++ items.flatten ∧
      (cleanLoop fuel wa).sinkPlan = [] ∧
      (cleanLoop fuel wa).bufferedWriter.err = false := by
  induction items with
  | nil =>
    intro fuel wa hwf htl _ hplan herr _
    have hpop := LockFreeQueue.Pop_nil wa.queue hwf (by simpa using htl)
    cases fuel with
    | zero => exact ⟨by simp [cleanLoop], hplan, herr⟩
    | succ f =>
      simp only [cleanLoop, hpop]
      exact ⟨by simp, hplan, herr⟩
  | cons i rest ih =>
    intro fuel wa hwf htl hfuel hplan herr hcap
    cases fuel with
    | zero => exact absurd hfuel (by simp)
    | succ f =>
      have hcons : wa.queue.toList = some i :: rest.map some := by
        simpa using htl
      obtain ⟨hpop, htl2, hwf2⟩ :=
        LockFreeQueue.Pop_cons wa.queue hwf (some i) (rest.map some) hcons
      simp only [cleanLoop, hpop]
      have hmidflow :=
        executeFunc_flow { wa with queue := wa.queue.popAdvance } i hplan herr hcap
      have hq :
          (executeFunc { wa with queue := wa.queue.popAdvance } i).queue =
            wa.queue.popAdvance :=
        (executeFunc_fields { wa with queue := wa.queue.popAdvance } i).2.1
      have hrec := ih f (executeFunc { wa with queue := wa.queue.popAdvance } i)
        (by rw [hq]; exact hwf2) (by rw [hq]; exact htl2)
        (by simpa using Nat.le_of_succ_le_succ hfuel)
        hmidflow.2.1 hmidflow.2.2.1 hmidflow.2.2.2
      refine ⟨?_, hrec.2.1, hrec.2.2⟩
      rw [hrec.1, hmidflow.1]
      simp [List.append_assoc]

private theorem flatten_filter_nonempty (ps : List (List Nat)) :
    (ps.filter fun p => !p.isEmpty).flatten = ps.flatten := by
  induction ps with
  | nil => rfl
  | cons p t ih =>
    by_cases hp : p.isEmpty
    · have hpnil : p = [] := by simpa using hp
      rw [List.filter_cons]
      simp [hp, hpnil, ih]
    · rw [List.filter_cons]
      simp [hp, ih]

private theorem runWrites_inv (ps : List (List Nat)) :
    ∀ wa : WriteAsyncer, wa.running = true → wa.queue.WF →
      (runWrites wa ps).1 =
        ps.map (fun p => (p.length, (none : Option WriteError))) ∧
      (runWrites wa ps).2.queue.WF ∧
      (runWrites wa ps).2.queue.toList =
        wa.queue.toList ++ (ps.filter fun p => !p.isEmpty).map some ∧
      (runWrites wa ps).2.running = wa.running ∧
      (runWrites wa ps).2.onceDone = wa.onceDone ∧
      (runWrites wa ps).2.sinkPlan = wa.sinkPlan ∧
      (runWrites wa ps).2.sinkReceived = wa.sinkReceived ∧
      (runWrites wa ps).2.bufferedWriter = wa.bufferedWriter ∧
      (runWrites wa ps).2.buffSize = wa.buffSize := by
  induction ps with
  | nil =>
    intro wa _ hwf
    exact ⟨rfl, hwf, by simp [runWrites], rfl, rfl, rfl, rfl, rfl, rfl⟩
  | cons p t ih =>
    intro wa hrun hwf
    by_cases hp : p.length ≤ 0
    · have hp0 : p = [] := by
        cases p with
        | nil => rfl
        | cons b bs => simp at hp
      have hw : wa.Write (some p) = ((0, none), wa) := by
        unfold Write
        rw [hrun]
        simp [hp]
      simp only [runWrites, hw]
      obtain ⟨i1, i2, i3, i4, i5, i6, i7, i8, i9⟩ := ih wa hrun hwf
      refine ⟨?_, i2, ?_, i4, i5, i6, i7, i8, i9⟩
      · rw [i1, hp0]
        rfl
      · rw [i3, hp0]
        simp [List.filter_cons]
    · have hw : wa.Write (some p) =
          ((p.length, none),
            { wa with pool := wa.pool - 1, queue := wa.queue.Push (some p) }) := by
        unfold Write
        rw [hrun]
        simp [hp]
      simp only [runWrites, hw]
      obtain ⟨i1, i2, i3, i4, i5, i6, i7, i8, i9⟩ :=
        ih { wa with pool := wa.pool - 1, queue := wa.queue.Push (some p) } hrun
          (LockFreeQueue.Push_WF wa.queue (some p) hwf)
      refine ⟨by rw [i1]; rfl, i2, ?_, i4, i5, i6, i7, i8, i9⟩
      rw [i3]
      show (wa.queue.Push (some p)).toList ++ _ = _
      rw [LockFreeQueue.Push_toList wa.queue (some p) hwf]
      have hpe : p.isEmpty = false := by
        cases p with
        | nil => simp at hp
        | cons b bs => rfl
      rw [List.filter_cons]
      simp [hpe, List.append_assoc]

private theorem Stop_sink (wa : WriteAsyncer) (items : List (List Nat))
    (hod : wa.onceDone = false)
    (hwf : wa.queue.WF) (htl : wa.queue.toList = items.map some)
    (hplan : wa.sinkPlan = []) (herr : wa.bufferedWriter.err = false)
    (hcap : wa.bufferedWriter.cap = wa.buffSize) :
    (wa.Stop).sinkReceived =
      wa.sinkReceived ++ wa.bufferedWriter.buf ++ items.flatten := by
  have hlen := LockFreeQueue.toList_length wa.queue hwf
  have hbound : items.length ≤ wa.queue.heap.length := by
    have h2 : wa.queue.toList.length = items.length := by rw [htl]; simp
    have h3 := hwf.tail_succ
    omega
  unfold Stop
  rw [if_neg (by rw [hod]; simp)]
  dsimp only
  unfold cleanQueueToWriter
  obtain ⟨hd1, hd2, hd3⟩ :=
    cleanLoop_drain items
      ({ wa with onceDone := true, running := false }).queue.heap.length
      { wa with onceDone := true, running := false }
      hwf htl hbound hplan herr hcap
  rw [bwFlush_nilplan _ hd2 hd3]
  dsimp only
  rw [hd1]

private theorem flushBufferedWriter_preflush_fail (wa : WriteAsyncer)
    (content : List Nat) (rest : List Bool)
    (hplan : wa.sinkPlan = false :: rest)
    (herr : wa.bufferedWriter.err = false)
    (hbuf : 0 < wa.bufferedWriter.buffered)
    (hover : wa.bufferedWriter.available < content.length) :
    wa.flushBufferedWriter content =
      ((0, false), { wa with
        bufferedWriter := { wa.bufferedWriter with err := true },
        sinkPlan := rest }) := by
  have hbufne : wa.bufferedWriter.buf ≠ [] := by
    intro hnil
    simp only [BufWriter.buffered, hnil, List.length_nil] at hbuf
    omega
  have h0 : ¬ content.length = 0 := by omega
  have hfl : wa.bufferedWriter.available < content.length ∧
      0 < wa.bufferedWriter.buffered := ⟨hover, hbuf⟩
  unfold flushBufferedWriter
  dsimp only
  rw [if_neg h0, if_pos hfl, bwFlush_failplan wa rest hplan herr hbufne]
  dsimp only
  rw [if_pos rfl]

private theorem cleanLoop_onceDone :
    ∀ (fuel : Nat) (wa : WriteAsyncer),
      (cleanLoop fuel wa).onceDone = wa.onceDone := by
  intro fuel
  induction fuel with
  | zero => intro wa; rfl
  | succ f ih =>
    intro wa
    simp only [cleanLoop]
    rcases hcase : (wa.queue.Pop).1 with _ | c
    · rfl
    · rw [ih, (executeFunc_fields { wa with queue := wa.queue.Pop.2 } c).1]

private theorem Stop_onceDone (wa : WriteAsyncer) : (wa.Stop).onceDone = true := by
  unfold Stop
  split_ifs with h1
  · exact h1
  · show (cleanQueueToWriter { wa with onceDone := true, running := false }).onceDone = true
    unfold cleanQueueToWriter
    rw [cleanLoop_onceDone]

private theorem Stop_of_done (wa : WriteAsyncer) (h : wa.onceDone = true) :
    wa.Stop = wa := by
  unfold Stop
  rw [if_pos h]

end WriteAsyncer

/-! ## The verified claims -/

/-- C1: For any sequence of single-threaded Write calls followed by
Stop, every Write succeeds returning its payload's length, and the byte
sequence the sink has received once Stop returns is exactly the
concatenation of the payloads in call order; in particular writing
hello, world, !!! and stopping delivers helloworld!!! to the sink. -/
theorem sequential_writes_then_stop_concat :
    (∀ (conf : Config) (ps : List (List Nat)),
      (runWrites (NewWriteAsyncer conf []) ps).1 =
        ps.map (fun p => (p.length, (none : Option WriteError))) ∧
      ((runWrites (NewWriteAsyncer conf []) ps).2.Stop).sinkReceived =
        ps.flatten) ∧
    ((runWrites (NewWriteAsyncer { buffSize := 2048, idleTimeout := 5000 } [])
        [[104, 101, 108, 108, 111], [119, 111, 114, 108, 100],
          [33, 33, 33]]).2.Stop).sinkReceived =
      [104, 101, 108, 108, 111, 119, 111, 114, 108, 100, 33, 33, 33] := by
  have hG : ∀ (conf : Config) (ps : List (List Nat)),
      (runWrites (NewWriteAsyncer conf []) ps).1 =
        ps.map (fun p => (p.length, (none : Option WriteError))) ∧
      ((runWrites (NewWriteAsyncer conf []) ps).2.Stop).sinkReceived =
        ps.flatten := by
    intro conf ps
    obtain ⟨i1, i2, i3, i4, i5, i6, i7, i8, i9⟩ :=
      WriteAsyncer.runWrites_inv ps (NewWriteAsyncer conf []) rfl
        LockFreeQueue.NewLockFreeQueue_WF
    refine ⟨i1, ?_⟩
    have hs := WriteAsyncer.Stop_sink (runWrites (NewWriteAsyncer conf []) ps).2
      (ps.filter fun p => !p.isEmpty)
      (by rw [i5]; rfl) i2 (by rw [i3]; rfl) (by rw [i6]; rfl)
      (by rw [i8]; rfl) (by rw [i8, i9]; rfl)
    rw [hs, i7, i8]
    show ([] : List Nat) ++ ([] : List Nat) ++ _ = _
    rw [WriteAsyncer.flatten_filter_nonempty]
    simp
  refine ⟨hG, ?_⟩
  have h := (hG { buffSize := 2048, idleTimeout := 5000 }
    [[104, 101, 108, 108, 111], [119, 111, 114, 108, 100], [33, 33, 33]]).2
  rw [h]
  rfl

/-- C2: Write returns (0, closed) whenever the running flag is off;
otherwise (0, nil-content) on a nil payload; otherwise (0, ok) without
enqueueing on an empty payload; otherwise it takes a buffer from the
pool, copies the payload into it, pushes it onto the queue and returns
(length, ok). -/
theorem write_result_spec (wa : WriteAsyncer) :
    (∀ p, wa.running = false →
      wa.Write p = ((0, some WriteError.closed), wa)) ∧
    (wa.running = true →
      wa.Write none = ((0, some WriteError.nilContent), wa)) ∧
    (∀ bs, wa.running = true → bs.length = 0 →
      wa.Write (some bs) = ((0, none), wa)) ∧
    (∀ bs, wa.running = true → bs ≠ [] →
      wa.Write (some bs) =
        ((bs.length, none),
          { wa with
            pool := wa.pool - 1, queue := wa.queue.Push (some bs) })) := by
  refine ⟨?_, ?_, ?_, ?_⟩
  · intro p h
    unfold WriteAsyncer.Write
    rw [h]
    simp
  · intro h
    unfold WriteAsyncer.Write
    rw [h]
    simp
  · intro bs h h0
    unfold WriteAsyncer.Write
    rw [h]
    simp [h0]
  · intro bs h hne
    unfold WriteAsyncer.Write
    rw [h]
    have hlen : ¬ bs.length ≤ 0 := by
      cases bs with
      | nil => exact absurd rfl hne
      | cons b t => simp
    simp [hlen]

/-- C2 witness: the four branches of Write at concrete states. -/
theorem write_result_spec_witness :
    waClosed.Write (some [1]) = ((0, some WriteError.closed), waClosed) ∧
    waOpen.Write none = ((0, some WriteError.nilContent), waOpen) ∧
    waOpen.Write (some []) = ((0, none), waOpen) ∧
    (waOpen.Write (some [7, 8])).1 = (2, none) ∧
    (waOpen.Write (some [7, 8])).2.queue.toList = [some [7, 8]] := by
  refine ⟨(write_result_spec waClosed).1 (some [1]) rfl,
    (write_result_spec waOpen).2.1 rfl,
    (write_result_spec waOpen).2.2.1 [] rfl rfl, ?_, ?_⟩
  · rw [(write_result_spec waOpen).2.2.2 [7, 8] rfl (by decide)]
    rfl
  · rw [(write_result_spec waOpen).2.2.2 [7, 8] rfl (by decide)]
    decide

/-- C3: a successful Write of a non-empty payload appends to the queue a
freshly filled buffer holding exactly the payload's bytes in order (the
bytes were copied into the buffer, so the queue entry is independent of
the caller's slice). -/
theorem write_enqueues_exact_bytes (wa : WriteAsyncer) (bs : List Nat)
    (hrun : wa.running = true) (hne : bs ≠ []) (hwf : wa.queue.WF) :
    (wa.Write (some bs)).1 = (bs.length, none) ∧
    (wa.Write (some bs)).2.queue.toList = wa.queue.toList ++ [some bs] ∧
    (wa.Write (some bs)).2.queue.WF := by
  have hlen : ¬ bs.length ≤ 0 := by
    cases bs with
    | nil => exact absurd rfl hne
    | cons b t => simp
  have hw : wa.Write (some bs) =
      ((bs.length, none),
        { wa with pool := wa.pool - 1, queue := wa.queue.Push (some bs) }) := by
    unfold WriteAsyncer.Write
    rw [hrun]
    simp [hlen]
  rw [hw]
  exact ⟨rfl, LockFreeQueue.Push_toList wa.queue (some bs) hwf,
    LockFreeQueue.Push_WF wa.queue (some bs) hwf⟩

/-- C3 witness: writing two bytes into a fresh writer enqueues them. -/
theorem write_enqueues_exact_bytes_witness :
    (waOpen.Write (some [3, 4])).1 = (2, none) ∧
    (waOpen.Write (some [3, 4])).2.queue.toList = [some [3, 4]] := by
  have h := write_enqueues_exact_bytes waOpen [3, 4] rfl (by decide)
    LockFreeQueue.NewLockFreeQueue_WF
  refine ⟨h.1, ?_⟩
  rw [h.2.1]
  rfl

/-- C4: over any single-threaded sequence of Push and Pop calls starting
from the fresh queue, with every pushed value a non-nil buffer, the Pop
results coincide with those of the specification FIFO queue (each Pop
returns the oldest still-queued value, and signals none exactly when
every pushed value has been popped), and the final queue contents agree
with the specification queue. -/
theorem queue_fifo_and_empty_signal (α : Type) (ops : List (QOp α)) :
    (runOps (NewLockFreeQueue α) ops).2 = (fifoRun ([] : List α) ops).2 ∧
    (runOps (NewLockFreeQueue α) ops).1.toList =
      ((fifoRun ([] : List α) ops).1).map some := by
  have h := runOps_sim ops (NewLockFreeQueue α) []
    LockFreeQueue.NewLockFreeQueue_WF rfl
  exact ⟨h.1, h.2.1⟩

/-- C7: every invocation of the drainer's per-item routine returns the
popped buffer to the buffer pool, on every execution path. -/
theorem popped_buffer_returned_to_pool (wa : WriteAsyncer)
    (content : List Nat) :
    (wa.executeFunc content).pool = wa.pool + 1 :=
  (WriteAsyncer.executeFunc_fields wa content).2.2.2.2.2.2

/-- C9: Stop is idempotent; a second Stop leaves the writer state,
queue, staging buffer and sink stream exactly as the first left them. -/
theorem stop_idempotent (wa : WriteAsyncer) : wa.Stop.Stop = wa.Stop :=
  WriteAsyncer.Stop_of_done wa.Stop (WriteAsyncer.Stop_onceDone wa)

/-- C5: on a sink that accepts everything, the drainer's per-item
routine behaves as follows: a zero-length buffer changes neither the
sink stream nor the staging buffer; otherwise staging is flushed first
exactly when the content exceeds the available staging space and staging
is non-empty; then content at least as large as the staging capacity is
written directly to the sink bypassing staging, and smaller content is
appended to staging. -/
theorem drainer_item_routine_spec (wa : WriteAsyncer) (content : List Nat)
    (hplan : wa.sinkPlan = []) (herr : wa.bufferedWriter.err = false)
    (hcap : wa.bufferedWriter.cap = wa.buffSize) :
    wa.executeFunc content =
      if content.length = 0 then
        { wa with executeAt := wa.timer, pool := wa.pool + 1 }
      else if wa.buffSize ≤ content.length then
        { wa with
          executeAt := wa.timer, pool := wa.pool + 1,
          bufferedWriter := { wa.bufferedWriter with
            buf := stagingAfterPreFlush wa.bufferedWriter content.length },
          sinkReceived := wa.sinkReceived ++
            sinkOutFromPreFlush wa.bufferedWriter content.length ++ content }
      else
        { wa with
          executeAt := wa.timer, pool := wa.pool + 1,
          bufferedWriter := { wa.bufferedWriter with
            buf := stagingAfterPreFlush wa.bufferedWriter content.length ++
              content },
          sinkReceived := wa.sinkReceived ++
            sinkOutFromPreFlush wa.bufferedWriter content.length } := by
  have hch := WriteAsyncer.flushBufferedWriter_ok
    { wa with executeAt := wa.timer } content hplan herr hcap
  by_cases h0 : content.length = 0
  · rw [if_pos h0]
    unfold WriteAsyncer.executeFunc
    dsimp only
    rw [hch]
    dsimp only
    rw [if_pos h0]
    dsimp only
    rw [if_neg (by simp)]
  · rw [if_neg h0]
    by_cases hbig : wa.buffSize ≤ content.length
    · rw [if_pos hbig]
      unfold WriteAsyncer.executeFunc
      dsimp only
      rw [hch]
      dsimp only
      rw [if_neg h0, if_pos hbig]
      dsimp only
      rw [if_neg (by simp)]
    · rw [if_neg hbig]
      unfold WriteAsyncer.executeFunc
      dsimp only
      rw [hch]
      dsimp only
      rw [if_neg h0, if_neg hbig]
      dsimp only
      rw [if_neg (by simp)]

/-- C5 witness: a three-byte payload against staging capacity 4 holding
two bytes forces the pre-flush and is then appended to staging. -/
theorem drainer_item_routine_spec_witness :
    (waStaged.executeFunc [7, 8, 9]).sinkReceived = [5, 6] ∧
    (waStaged.executeFunc [7, 8, 9]).bufferedWriter.buf = [7, 8, 9] ∧
    (waStaged.executeFunc [7, 8, 9]).pool = 1 := by
  have h := drainer_item_routine_spec waStaged [7, 8, 9] rfl rfl rfl
  rw [h]
  decide

/-- C6 counterexample: with staging holding two bytes, capacity and
configured buffer size 4, a four-byte payload, and a sink whose next
call fails while the call after it would succeed, the pre-append flush
fails, the failure is reported to the callback, but the payload is NOT
written to the sink: the sink receives nothing, although a direct write
after the failed flush would have been accepted. -/
theorem flush_failure_no_direct_write_cex :
    0 < waFlaky.bufferedWriter.buffered ∧
    waFlaky.bufferedWriter.available < ([1, 2, 3, 4] : List Nat).length ∧
    waFlaky.buffSize ≤ ([1, 2, 3, 4] : List Nat).length ∧
    (waFlaky.executeFunc [1, 2, 3, 4]).sinkReceived = [] ∧
    (waFlaky.executeFunc [1, 2, 3, 4]).callbacks = [some [1, 2, 3, 4]] ∧
    (sinkWrite (waFlaky.executeFunc [1, 2, 3, 4]).sinkPlan []
      [1, 2, 3, 4]).2.2 = [1, 2, 3, 4] := by
  decide

/-- C6 (amended): when the pre-append staging flush fails while
processing a buffer at least as large as the staging capacity, the
failure is reported to the callback with the buffer's bytes, the staging
error latches, the buffer is returned to the pool, and the routine
returns without attempting the direct write to the sink. -/
theorem flush_failure_reports_and_skips_direct (wa : WriteAsyncer)
    (content : List Nat) (rest : List Bool)
    (hplan : wa.sinkPlan = false :: rest)
    (herr : wa.bufferedWriter.err = false)
    (hbuf : 0 < wa.bufferedWriter.buffered)
    (hover : wa.bufferedWriter.available < content.length)
    (_hbig : wa.buffSize ≤ content.length) :
    wa.executeFunc content = { wa with
      executeAt := wa.timer,
      bufferedWriter := { wa.bufferedWriter with err := true },
      sinkPlan := rest,
      callbacks := wa.callbacks ++ [some content],
      pool := wa.pool + 1 } := by
  have hch := WriteAsyncer.flushBufferedWriter_preflush_fail
    { wa with executeAt := wa.timer } content rest hplan herr hbuf hover
  unfold WriteAsyncer.executeFunc
  dsimp only
  rw [hch]
  dsimp only
  rw [if_pos rfl]

/-- C6 amended witness: the concrete flaky-sink scenario. -/
theorem flush_failure_reports_and_skips_direct_witness :
    (waFlaky.executeFunc [1, 2, 3, 4]).bufferedWriter.err = true ∧
    (waFlaky.executeFunc [1, 2, 3, 4]).callbacks = [some [1, 2, 3, 4]] ∧
    (waFlaky.executeFunc [1, 2, 3, 4]).sinkReceived = [] := by
  have h := flush_failure_reports_and_skips_direct waFlaky [1, 2, 3, 4]
    [true] rfl rfl (by decide) (by decide) (by decide)
  rw [h]
  decide

/-- C8 counterexample: the poller of part_011 compares the idle time
against the hard-coded five-second default, not the configured
idle timeout.  With idle timeout configured to 1000 ms, one staged byte
and 2000 ms elapsed since the last drain activity, the heartbeat tick
flushes nothing and changes nothing, although the claim requires a
flush. -/
theorem idle_flush_config_ignored_cex :
    waIdleShort.idleTimeout = 1000 ∧
    0 < waIdleShort.idleTimeout ∧
    0 < waIdleShort.bufferedWriter.buffered ∧
    waIdleShort.idleTimeout ≤ waIdleShort.timer - waIdleShort.executeAt ∧
    waIdleShort.heartbeatTick = waIdleShort ∧
    waIdleShort.heartbeatTick.sinkReceived = [] := by
  decide

/-- C8 (amended): on a heartbeat tick where staging holds at least one
byte and the elapsed time since the last drain activity is at least the
hard-coded default of 5000 ms (regardless of the Config's idle timeout,
which WithIdleTimeout stores but the part_011 poller never reads), the
drainer flushes staging to the sink — reporting a nil payload to the
callback on flush error — and updates the last-drain timestamp. -/
theorem idle_flush_fixed_default_spec (wa : WriteAsyncer)
    (hbuf : 0 < wa.bufferedWriter.buffered)
    (helapsed : defaultIdleTimeoutMs ≤ wa.timer - wa.executeAt)
    (herr : wa.bufferedWriter.err = false) :
    (wa.sinkPlan = [] →
      wa.heartbeatTick = { wa with
        bufferedWriter := { wa.bufferedWriter with buf := [] },
        sinkReceived := wa.sinkReceived ++ wa.bufferedWriter.buf,
        executeAt := wa.timer }) ∧
    (∀ rest, wa.sinkPlan = false :: rest →
      wa.heartbeatTick = { wa with
        bufferedWriter := { wa.bufferedWriter with err := true },
        sinkPlan := rest,
        callbacks := wa.callbacks ++ [none],
        executeAt := wa.timer }) := by
  constructor
  · intro hplan
    unfold WriteAsyncer.heartbeatTick
    dsimp only
    rw [if_pos hbuf, if_pos helapsed,
      WriteAsyncer.bwFlush_nilplan wa hplan herr]
    dsimp only
    rw [if_neg (by simp)]
  · intro rest hplan
    have hbufne : wa.bufferedWriter.buf ≠ [] := by
      intro hnil
      simp only [BufWriter.buffered, hnil, List.length_nil] at hbuf
      omega
    unfold WriteAsyncer.heartbeatTick
    dsimp only
    rw [if_pos hbuf, if_pos helapsed,
      WriteAsyncer.bwFlush_failplan wa rest hplan herr hbufne]
    dsimp only
    rw [if_pos rfl]

/-- C8 amended witness: with 6000 ms elapsed the staged byte reaches the
sink and the last-drain timestamp advances. -/
theorem idle_flush_fixed_default_spec_witness :
    defaultIdleTimeoutMs ≤ waIdleLong.timer - waIdleLong.executeAt ∧
    (waIdleLong.heartbeatTick).sinkReceived = [42] ∧
    (waIdleLong.heartbeatTick).bufferedWriter.buf = [] ∧
    (waIdleLong.heartbeatTick).executeAt = 6000 := by
  have h := (idle_flush_fixed_default_spec waIdleLong (by decide) (by decide)
    rfl).1 rfl
  rw [h]
  decide

/-- C10: pushing the nil interface value makes the next Pop remove that
node and return nil, the same signal as for an empty queue, while the
length counter is still decremented; the queue was in fact non-empty
when that Pop was called. -/
theorem push_nil_pop_nil_signal :
    ((NewLockFreeQueue Nat).Push none).Pop.1 = none ∧
    ((NewLockFreeQueue Nat).Push none).toList = [none] ∧
    ((NewLockFreeQueue Nat).Push none).toList ≠ [] ∧
    ((NewLockFreeQueue Nat).Push none).Length = 1 ∧
    ((NewLockFreeQueue Nat).Push none).Pop.2.Length = 0 ∧
    ((NewLockFreeQueue Nat).Push none).Pop.2.toList = [] := by
  decide

end Law
